import Mathlib

/-!
Verification of the ModelWatcher scan-normalize-diff-notify pipeline.

The JavaScript sources (scanner.js, logger.js, webhook.js, index.js) are
shallowly embedded below: JSON values become the inductive `JValue`,
JavaScript objects become association lists in insertion order, fallible
code returns `Except String`, and the impure reads (`Date.now`,
`process.env`) are passed in as explicit parameters.  Numeric JSON values
are modelled as integers (the pipeline performs no arithmetic on them).
-/

/-- A JavaScript value as it flows through the pipeline: JSON values plus
`undefined` (the result of reading an absent property). -/
inductive JValue where
  | undefined
  | null
  | bool (b : Bool)
  | num (n : Int)
  | str (s : String)
  | arr (elems : List JValue)
  | obj (fields : List (String × JValue))

/-- A JavaScript object (a record), as an association list in property
insertion order. -/
abbrev JObj := List (String × JValue)

mutual
/-- Structural value equality on `JValue`.  This models the `===` / Set
membership comparisons of the source, which are applied to primitive ids
(strings); object-reference identity is not modelled. -/
def jeqV : JValue → JValue → Bool
  | .undefined, .undefined => true
  | .null, .null => true
  | .bool a, .bool b => a == b
  | .num a, .num b => a == b
  | .str a, .str b => a == b
  | .arr a, .arr b => jeqA a b
  | .obj a, .obj b => jeqF a b
  | _, _ => false
def jeqA : List JValue → List JValue → Bool
  | [], [] => true
  | x :: xs, y :: ys => jeqV x y && jeqA xs ys
  | _, _ => false
def jeqF : List (String × JValue) → List (String × JValue) → Bool
  | [], [] => true
  | (k, v) :: xs, (k2, v2) :: ys => k == k2 && jeqV v v2 && jeqF xs ys
  | _, _ => false
end

/-- JavaScript truthiness (`NaN` is not modelled; `num` is an integer). -/
def jsTruthy : JValue → Bool
  | .undefined => false
  | .null => false
  | .bool b => b
  | .num n => n != 0
  | .str s => s ≠ ""
  | .arr _ => true
  | .obj _ => true

/-- JavaScript `a || b`: the first operand when truthy, otherwise the second. -/
def jsOr (a b : JValue) : JValue :=
  if jsTruthy a then a else b

/-- First-match association lookup (JavaScript objects carry at most one
binding per key, so first match is the binding). -/
def alookup {β : Type} : List (String × β) → String → Option β
  | [], _ => none
  | (k, v) :: rest, e => if e == k then some v else alookup rest e

/-- Property read from a record: the bound value, or `undefined` when the
key is absent. -/
def jget (m : JObj) (k : String) : JValue :=
  match alookup m k with
  | some v => v
  | none => .undefined

/-- Property read `v.k` on an arbitrary non-null value: objects look the key
up, every other (non-null, non-undefined) value yields `undefined`.  The
throwing cases (`null`/`undefined` receivers) are handled at the call sites
that can reach them. -/
def jgetV : JValue → String → JValue
  | .obj fs, k => jget fs k
  | _, _ => .undefined

/-- Property assignment `o[k] = v` on a string-keyed map: overwrite the
key's binding in place when it exists, otherwise append it.  (The
numeric-key reordering of JavaScript property order is not modelled; no
claim depends on the property order of numeric keys.) -/
def oset {β : Type} : List (String × β) → String → β → List (String × β)
  | [], k, v => [(k, v)]
  | (k0, v0) :: rest, k, v =>
    if k0 == k then (k, v) :: rest else (k0, v0) :: oset rest k v

/-- Object spread `{...base, ...m}` restricted to its tail: folds `m`'s own
enumerable entries into `base` by assignment.  Spreading a string or an
array contributes its index-keyed entries; spreading any other primitive
contributes nothing, as in JavaScript. -/
def ospread (base : JObj) (m : JValue) : JObj :=
  match m with
  | .obj fs => fs.foldl (fun acc p => oset acc p.1 p.2) base
  | .arr xs => (xs.enum).foldl (fun acc p => oset acc (toString p.1) p.2) base
  | .str s => (s.toList.enum).foldl
      (fun acc p => oset acc (toString p.1) (.str (String.singleton p.2))) base
  | _ => base

/-- One character of `JSON.stringify` string escaping. -/
def jsonEscChar (c : Char) : String :=
  if c = '"' then "\\\""
  else if c = '\\' then "\\\\"
  else if c = '\n' then "\\n"
  else if c = '\t' then "\\t"
  else if c = '\r' then "\\r"
  else if c = (Char.ofNat 8) then "\\b"
  else if c = (Char.ofNat 12) then "\\f"
  else if c.toNat < 32 then
    "\\u00" ++ String.singleton (Nat.digitChar (c.toNat / 16))
      ++ String.singleton (Nat.digitChar (c.toNat % 16))
  else String.singleton c

/-- `JSON.stringify` escaping of a whole string, quotes included. -/
def jsonQuote (s : String) : String :=
  "\"" ++ String.join (s.toList.map jsonEscChar) ++ "\""

/-- Comma-join a list of rendered fragments. -/
def joinComma : List String → String
  | [] => ""
  | [x] => x
  | x :: xs => x ++ "," ++ joinComma xs

mutual
/-- `JSON.stringify`: `none` models the `undefined` result on an `undefined`
argument; inside arrays `undefined` renders as `null`, and object entries
whose value is `undefined` are dropped, as in JavaScript. -/
def jsonStringify : JValue → Option String
  | .undefined => none
  | .null => some "null"
  | .bool b => some (cond b "true" "false")
  | .num n => some (toString n)
  | .str s => some (jsonQuote s)
  | .arr xs => some ("[" ++ joinComma (jsonStringifyArr xs) ++ "]")
  | .obj fs => some ("\x7b" ++ joinComma (jsonStringifyObj fs) ++ "\x7d")
def jsonStringifyArr : List JValue → List String
  | [] => []
  | x :: xs =>
    (match jsonStringify x with
     | some s => s
     | none => "null") :: jsonStringifyArr xs
def jsonStringifyObj : List (String × JValue) → List String
  | [] => []
  | (k, v) :: fs =>
    match jsonStringify v with
    | some s => (jsonQuote k ++ ":" ++ s) :: jsonStringifyObj fs
    | none => jsonStringifyObj fs
end

/-- Append a key unless already present: used to build the deduplicated
key set `new Set([...Object.keys(a), ...Object.keys(b)])` in first-seen
order. -/
def addKey (acc : List String) (k : String) : List String :=
  if acc.contains k then acc else acc ++ [k]

/-- The deduplicated union of two records' key lists, in first-seen order. -/
def allKeysOf (a b : JObj) : List String :=
  (a.map Prod.fst ++ b.map Prod.fst).foldl addKey []

/-!
## scanner.js
-/

/-- Static configuration of one catalog source (scanner.js reads only the
name during normalization; the network fields live in `fetchModels`,
whose outcome is abstracted as `FetchOutcome` below). -/
structure Endpoint where
  name : String

/-- The per-attempt result of `fetchModels`: `configured` is `some false`
exactly when the function set `configured: false` (missing API key), and
unset (`none`) otherwise; `error` is unset on success. -/
structure FetchOutcome where
  success : Bool
  configured : Option Bool := none
  error : Option String := none
deriving DecidableEq

/-- The retry loop body of `scanEndpoints` for one endpoint.  `fetch i` is
the outcome of the `i`-th call of `fetchModels`; `fuel` counts the
remaining loop iterations (`attempt <= retryAttempts` holds iff fuel is
positive).  Returns the final outcome together with the total number of
`fetchModels` calls performed. -/
def scanGo (fetch : Nat → FetchOutcome) (attempt : Nat) : Nat → FetchOutcome × Nat
  | 0 => (fetch attempt, attempt + 1)
  | fuel + 1 =>
    let r := fetch attempt
    if r.success then (r, attempt + 1)
    else scanGo fetch (attempt + 1) fuel

/-- One endpoint's pass through `scanEndpoints`: the `for` loop makes up to
`retryAttempts + 1` calls, and on falling out of the loop the source makes
one further fresh `fetchModels` call and returns its result. -/
def scanEndpointOne (fetch : Nat → FetchOutcome) (retryAttempts : Nat) :
    FetchOutcome × Nat :=
  scanGo fetch 0 (retryAttempts + 1)

/-- The record literal of the OpenAI-format branch:
`{id: m.id, name: m.id, created: m.created, owned_by: m.owned_by,
permission: m.permission, root: m.root, parent: m.parent,
object: m.object, ...m}`. -/
def openAIRecordOf (m : JValue) : JObj :=
  ospread
    [("id", jgetV m "id"), ("name", jgetV m "id"),
     ("created", jgetV m "created"), ("owned_by", jgetV m "owned_by"),
     ("permission", jgetV m "permission"), ("root", jgetV m "root"),
     ("parent", jgetV m "parent"), ("object", jgetV m "object")] m

/-- The OpenAI-format branch of `normalizeModels`.  Reading a property of
a `null`/`undefined` entry throws. -/
def normOpenAIEntry (m : JValue) : Except String JObj :=
  match m with
  | .null => .error "TypeError: cannot read properties of null"
  | .undefined => .error "TypeError: cannot read properties of undefined"
  | _ => .ok (openAIRecordOf m)

/-- The record literal of the GitHub Models branch:
`{id: m.id, name: m.name || m.id, publisher: m.publisher,
registry: m.registry, summary: m.summary, html_url: m.html_url, ...m}`. -/
def gitHubRecordOf (m : JValue) : JObj :=
  ospread
    [("id", jgetV m "id"),
     ("name", jsOr (jgetV m "name") (jgetV m "id")),
     ("publisher", jgetV m "publisher"), ("registry", jgetV m "registry"),
     ("summary", jgetV m "summary"), ("html_url", jgetV m "html_url")] m

/-- The GitHub Models branch of `normalizeModels`. -/
def normGitHubEntry (m : JValue) : Except String JObj :=
  match m with
  | .null => .error "TypeError: cannot read properties of null"
  | .undefined => .error "TypeError: cannot read properties of undefined"
  | _ => .ok (gitHubRecordOf m)

/-- The record literal of the bare-array branch:
`{id: m.id || m.name, name: m.id || m.name, ...m}`. -/
def bareRecordOf (m : JValue) : JObj :=
  ospread
    [("id", jsOr (jgetV m "id") (jgetV m "name")),
     ("name", jsOr (jgetV m "id") (jgetV m "name"))] m

/-- The bare-array branch of `normalizeModels`. -/
def normBareEntry (m : JValue) : Except String JObj :=
  match m with
  | .null => .error "TypeError: cannot read properties of null"
  | .undefined => .error "TypeError: cannot read properties of undefined"
  | _ => .ok (bareRecordOf m)

/-- The Ollama branch: `{id: m.name, name: m.name, model: m.name,
modified_at: m.modified_at, size: m.size, digest: m.digest,
details: m.details}` — note: no spread, so fields outside this fixed set
are not carried over. -/
def normOllamaEntry (m : JValue) : Except String JObj :=
  match m with
  | .null => .error "TypeError: cannot read properties of null"
  | .undefined => .error "TypeError: cannot read properties of undefined"
  | _ =>
    .ok [("id", jgetV m "name"), ("name", jgetV m "name"),
         ("model", jgetV m "name"), ("modified_at", jgetV m "modified_at"),
         ("size", jgetV m "size"), ("digest", jgetV m "digest"),
         ("details", jgetV m "details")]

/-- `Array.prototype.map` over a mapper that can throw: the first throw
aborts the whole map, as in JavaScript. -/
def mapExcept (f : α → Except String β) : List α → Except String (List β)
  | [] => .ok []
  | x :: xs => do
    let y ← f x
    let ys ← mapExcept f xs
    .ok (y :: ys)

/-- Insert into a list sorted by `le` (used to model the id sort). -/
def insertLe (le : α → α → Bool) (x : α) : List α → List α
  | [] => [x]
  | y :: ys => if le x y then x :: y :: ys else y :: insertLe le x ys

/-- Insertion sort by `le`. -/
def sortLe (le : α → α → Bool) : List α → List α
  | [] => []
  | x :: xs => insertLe le x (sortLe le xs)

/-- Is the value a string? -/
def isStr : JValue → Bool
  | .str _ => true
  | _ => false

/-- The id of a normalized record, as the sort comparator reads it. -/
def recId (m : JObj) : JValue := jget m "id"

/-- String of a `JValue` known to be a string (defaults to `""`). -/
def strOf : JValue → String
  | .str s => s
  | _ => ""

/-- Lexicographic character-code comparison of two strings. -/
def charListLe : List Char → List Char → Bool
  | [], _ => true
  | _ :: _, [] => false
  | a :: rest1, b :: rest2 =>
    if a.toNat < b.toNat then true
    else if b.toNat < a.toNat then false
    else charListLe rest1 rest2

/-- Lexicographic `≤` on strings as a boolean. -/
def strLeB (a b : String) : Bool := charListLe a.toList b.toList

/-- `models.sort((a, b) => a.id.localeCompare(b.id))`.  The comparator
throws a `TypeError` whenever it is applied with a record whose `id` is
not a string; which elements become receivers is implementation-defined,
so the model conservatively reports the throw whenever a multi-element
list contains a non-string id.  For all-string ids the comparator never
throws, and the resulting order is modelled by lexicographic string order
(`localeCompare` collation is locale-dependent; no claim depends on the
exact order). -/
def sortById (models : List JObj) : Except String (List JObj) :=
  if models.length ≤ 1 then .ok models
  else if models.all (fun m => isStr (recId m)) then
    .ok (sortLe (fun a b => strLeB (strOf (recId a)) (strOf (recId b))) models)
  else .error "TypeError: localeCompare is not a function"

/-- Is the value an array (`Array.isArray` combined with the truthiness
guard of the source: an array is always truthy, and a non-array never
passes `Array.isArray`, so each branch guard reduces to this test)? -/
def isArr : JValue → Bool
  | .arr _ => true
  | _ => false

/-- Elements of an array value. -/
def elemsOf : JValue → List JValue
  | .arr xs => xs
  | _ => []

/-- `normalizeModels(data, endpoint)` of scanner.js.  Property access
`data.data` throws on a `null`/`undefined` payload; every other payload
shape-sniffs through the branch chain.  The final two source branches
(Cohere `data.models` and Mistral `data.data`) repeat the conditions of
earlier branches and are unreachable, so they are not separate cases
here. -/
def normalizeModels (data : JValue) (endpoint : Endpoint) :
    Except String (List JObj) :=
  match data with
  | .null => .error "TypeError: cannot read properties of null"
  | .undefined => .error "TypeError: cannot read properties of undefined"
  | _ =>
    let branch : Except String (List JObj) :=
      if isArr (jgetV data "data") then
        mapExcept normOpenAIEntry (elemsOf (jgetV data "data"))
      else if endpoint.name == "GitHub Models" && isArr data then
        mapExcept normGitHubEntry (elemsOf data)
      else if isArr data then
        mapExcept normBareEntry (elemsOf data)
      else if isArr (jgetV data "models") then
        mapExcept normOllamaEntry (elemsOf (jgetV data "models"))
      else
        .ok []
    match branch with
    | .error e => .error e
    | .ok models => sortById models

/-- `getModelChanges(oldModel, newModel)`: for every key present in either
record, compare `JSON.stringify` of the two property reads; collect the
differing keys with their old and new values. -/
def getModelChanges (oldModel newModel : JObj) :
    List (String × JValue × JValue) :=
  (allKeysOf oldModel newModel).filterMap fun k =>
    if jsonStringify (jget oldModel k) ≠ jsonStringify (jget newModel k) then
      some (k, jget oldModel k, jget newModel k)
    else none

/-- The summary count triple of a `compareModels` result. -/
structure DiffSummary where
  addedCount : Nat
  removedCount : Nat
  updatedCount : Nat
deriving DecidableEq

/-- The `compareModels` result. -/
structure Diff where
  added : List JObj
  removed : List JObj
  updated : List (JObj × List (String × JValue × JValue))
  summary : DiffSummary

/-- `compareModels(oldModels, newModels)` of scanner.js. -/
def compareModels (oldModels newModels : List JObj) : Diff :=
  let oldIds := oldModels.map (fun m => jget m "id")
  let newIds := newModels.map (fun m => jget m "id")
  let added := newModels.filter (fun m => !(oldIds.any (fun i => jeqV i (jget m "id"))))
  let removed := oldModels.filter (fun m => !(newIds.any (fun i => jeqV i (jget m "id"))))
  let updated := newModels.filterMap fun newModel =>
    match oldModels.find? (fun m => jeqV (jget m "id") (jget newModel "id")) with
    | some oldModel =>
      let changes := getModelChanges oldModel newModel
      if changes.length > 0 then some (newModel, changes) else none
    | none => none
  { added := added, removed := removed, updated := updated,
    summary := { addedCount := added.length, removedCount := removed.length,
                 updatedCount := updated.length } }

/-!
## logger.js
-/

/-- The volatile timestamp keys stripped before persistence. -/
def TIMESTAMP_FIELDS : List String := ["created", "updated", "modified_at"]

/-- `Logger.stripTimestamps`: deletes the timestamp keys from every record
(the non-array guard of the source is vacuous here, the callers always
pass an array). -/
def stripTimestamps (models : List JObj) : List JObj :=
  models.map (fun m => m.filter (fun p => !(TIMESTAMP_FIELDS.contains p.1)))

/-- One persisted per-source entry of `state.json`. -/
structure StateEntry where
  success : Bool
  models : List JObj
  error : Option String

/-- One element of the `results` array produced by `scanEndpoints`:
`configured` is `some false` exactly on the missing-API-key path,
`models` is present only on success. -/
structure ScanResult where
  endpoint : String
  success : Bool
  configured : Option Bool := none
  error : Option String := none
  models : Option (List JObj) := none

/-- The `state.endpoints` entry `saveState` builds from one result:
`{success: result.success, models: stripTimestamps(result.models || []),
error: result.error}`. -/
def resultEntry (r : ScanResult) : StateEntry :=
  { success := r.success,
    models := stripTimestamps (r.models.getD []),
    error := r.error }

/-- `Logger.saveState(results)`: builds a fresh `state.endpoints` object
(starting from `{}`, not from the previously persisted state) with one
entry per result — success or failure. -/
def saveState (results : List ScanResult) : List (String × StateEntry) :=
  results.foldl (fun st r => oset st r.endpoint (resultEntry r)) []

/-- Read one source's entry from a persisted state. -/
def lookupEntry (st : List (String × StateEntry)) (k : String) :
    Option StateEntry :=
  alookup st k

/-!
## index.js — sanitization and exit signaling
-/

/-- Case-insensitive character comparison (ASCII, as the sources use). -/
def lowEq (a b : Char) : Bool := a.toLower == b.toLower

/-- Case-insensitively match a literal pattern at the head of the input,
returning the rest on success. -/
def matchCI : List Char → List Char → Option (List Char)
  | [], cs => some cs
  | _, [] => none
  | p :: ps, c :: cs => if lowEq p c then matchCI ps cs else none

/-- Longest run of characters satisfying `pred`, with its length. -/
def takeRun (pred : Char → Bool) : List Char → Nat × List Char
  | [] => (0, [])
  | c :: cs =>
    if pred c then
      let (n, r) := takeRun pred cs
      (n + 1, r)
    else (0, c :: cs)

/-- The `[a-zA-Z0-9\-_]` character class. -/
def isIdChar (c : Char) : Bool :=
  ('a' ≤ c && c ≤ 'z') || ('A' ≤ c && c ≤ 'Z') ||
  ('0' ≤ c && c ≤ '9') || c == '-' || c == '_'

/-- The `\s` character class (ASCII part). -/
def isWsChar (c : Char) : Bool :=
  c == ' ' || c == '\t' || c == '\n' || c == '\r'

/-- Global regex replacement: scan left to right, replacing each leftmost
match and resuming after it (replacements are not rescanned), advancing
one character where no match starts.  `fuel` bounds the recursion by the
input length; every matcher used below consumes at least one character. -/
def replaceGo (m : List Char → Option (List Char × List Char)) :
    Nat → List Char → List Char
  | 0, cs => cs
  | _, [] => []
  | fuel + 1, c :: cs =>
    match m (c :: cs) with
    | some (repl, rest) => repl ++ replaceGo m fuel rest
    | none => c :: replaceGo m fuel cs

/-- Apply a global regex replacement to a string. -/
def replaceAll (m : List Char → Option (List Char × List Char))
    (s : String) : String :=
  String.mk (replaceGo m (s.length + 1) s.toList)

/-- Matcher for `/(sk-|AKIA|eyJ)[a-zA-Z0-9\-_]{10,}/gi`, replaced by
`[REDACTED]`. -/
def vendorKeyMatch (cs : List Char) : Option (List Char × List Char) :=
  let cont := fun (rest : List Char) =>
    let (n, r) := takeRun isIdChar rest
    if n ≥ 10 then some ("[REDACTED]".toList, r) else none
  match matchCI "sk-".toList cs with
  | some rest => cont rest
  | none =>
    match matchCI "AKIA".toList cs with
    | some rest => cont rest
    | none =>
      match matchCI "eyJ".toList cs with
      | some rest => cont rest
      | none => none

/-- Matcher for a quoted JSON key/value pair
`"<key>"\s*:\s*"[^"]+"` with a replaceable key matcher, replaced by a
fixed redacted pair (used for the `"api[_-]?key"` and `"bearer"`
patterns). -/
def jsonPairMatch (keyM : List Char → Option (List Char)) (repl : String)
    (cs : List Char) : Option (List Char × List Char) :=
  match cs with
  | '"' :: cs1 =>
    match keyM cs1 with
    | some ('"' :: cs2) =>
      let (_, cs3) := takeRun isWsChar cs2
      match cs3 with
      | ':' :: cs4 =>
        let (_, cs5) := takeRun isWsChar cs4
        match cs5 with
        | '"' :: cs6 =>
          let (n, cs7) := takeRun (fun c => c ≠ '"') cs6
          if n ≥ 1 then
            match cs7 with
            | '"' :: cs8 => some (repl.toList, cs8)
            | _ => none
          else none
        | _ => none
      | _ => none
    | _ => none
  | _ => none

/-- Key matcher for `api[_-]?key` (case-insensitive). -/
def apiKeyKeyMatch (cs : List Char) : Option (List Char) :=
  match matchCI "api".toList cs with
  | none => none
  | some cs1 =>
    let cs2 := match cs1 with
      | c :: rest => if c == '_' || c == '-' then rest else c :: rest
      | [] => []
    matchCI "key".toList cs2

/-- Matcher for `/Authorization:\s*Bearer\s+[^\s]+/gi`, replaced by
`Authorization: Bearer [REDACTED]`. -/
def authHeaderMatch (cs : List Char) : Option (List Char × List Char) :=
  match matchCI "authorization:".toList cs with
  | none => none
  | some cs1 =>
    let (_, cs2) := takeRun isWsChar cs1
    match matchCI "bearer".toList cs2 with
    | none => none
    | some cs3 =>
      let (n1, cs4) := takeRun isWsChar cs3
      if n1 ≥ 1 then
        let (n2, cs5) := takeRun (fun c => !isWsChar c) cs4
        if n2 ≥ 1 then
          some ("Authorization: Bearer [REDACTED]".toList, cs5)
        else none
      else none

/-- `sanitize(text)` of index.js: the four global replacements in source
order (the non-string guard is vacuous here, the model types the argument
as a string). -/
def sanitize (s : String) : String :=
  let s1 := replaceAll vendorKeyMatch s
  let s2 := replaceAll
    (jsonPairMatch apiKeyKeyMatch "\"api_key\": \"[REDACTED]\"") s1
  let s3 := replaceAll
    (jsonPairMatch (matchCI "bearer".toList) "\"bearer\": \"[REDACTED]\"") s2
  replaceAll authHeaderMatch s3

/-- Does `needle` start `hay`? -/
def isStart (needle hay : List Char) : Bool :=
  match needle, hay with
  | [], _ => true
  | _, [] => false
  | a :: ns, b :: hs => a == b && isStart ns hs

/-- Does `needle` occur anywhere in `hay` (`String.includes`)? -/
def hasSub (needle : List Char) : List Char → Bool
  | [] => isStart needle []
  | c :: t => isStart needle (c :: t) || hasSub needle t

/-- `hay.includes(needle)` on strings. -/
def containsStr (hay needle : String) : Bool :=
  hasSub needle.toList hay.toList

/-- `key.toLowerCase()`. -/
def strLower (s : String) : String :=
  String.mk (s.toList.map Char.toLower)

/-- The sensitive-key test of `sanitizeObject`: the lowercased key contains
one of the six credential-like substrings. -/
def sensitiveKey (k : String) : Bool :=
  let kl := strLower k
  containsStr kl "key" || containsStr kl "token" || containsStr kl "secret" ||
  containsStr kl "password" || containsStr kl "bearer" || containsStr kl "auth"

mutual
/-- `sanitizeObject(obj)` of index.js: `null`/`undefined` and non-object
non-string primitives pass through, strings go through `sanitize`, and
arrays/objects are rebuilt entry by entry. -/
def sanitizeObject : JValue → JValue
  | .null => .null
  | .undefined => .undefined
  | .bool b => .bool b
  | .num n => .num n
  | .str s => .str (sanitize s)
  | .arr xs => .arr (sanitizeArr xs)
  | .obj fs => .obj (sanitizeFields fs)
/-- One non-sensitive entry value inside the loop: strings are sanitized,
`object`-typed values (including `null` and arrays) recurse through
`sanitizeObject`, and anything else is kept. -/
def sanitizeEntryVal : JValue → JValue
  | .str s => .str (sanitize s)
  | .null => .null
  | .arr xs => .arr (sanitizeArr xs)
  | .obj fs => .obj (sanitizeFields fs)
  | other => other
/-- The `Object.entries` loop of `sanitizeObject` over an object: a
sensitive key's value becomes `[REDACTED]`. -/
def sanitizeFields : List (String × JValue) → List (String × JValue)
  | [] => []
  | (k, v) :: rest =>
    (k, if sensitiveKey k then .str "[REDACTED]" else sanitizeEntryVal v)
      :: sanitizeFields rest
/-- The same loop over an array (index keys are never sensitive). -/
def sanitizeArr : List JValue → List JValue
  | [] => []
  | v :: rest => sanitizeEntryVal v :: sanitizeArr rest
end

/-- The exit decision at the end of `main()` in index.js:
`results.every(r => !r.success)` exits 1, anything else exits 0. -/
def mainExitCode (results : List ScanResult) : Nat :=
  if results.all (fun r => !r.success) then 1 else 0

/-!
## webhook.js
-/

/-- One field of a Discord embed. -/
structure EmbedField where
  name : String
  value : String
deriving DecidableEq

/-- A Discord embed as the renderers build it (`avatar_url`, `timestamp`
and the constant footer are presentation constants and are omitted; the
time-dependent relative timestamp appearing inside `description` is
injected as a parameter below). -/
structure Embed where
  title : String
  description : String
  color : Nat
  fields : List EmbedField := []
deriving DecidableEq

/-- A webhook payload. -/
structure Payload where
  username : String
  embeds : List Embed
deriving DecidableEq

/-- The chunking loop `for (let i = 0; i < xs.length; i += n)` over
`xs.slice(i, i + n)`, with a length-based fuel (each step drops `n ≥ 1`
elements). -/
def chunksGo (n : Nat) : Nat → List α → List (List α)
  | _, [] => []
  | 0, l => [l]
  | fuel + 1, l => l.take n :: chunksGo n fuel (l.drop n)

/-- Split a list into consecutive chunks of `n`. -/
def chunksOf (n : Nat) (l : List α) : List (List α) :=
  chunksGo n l.length l

/-- The `logs/state.json` pointer used by the count-only renderings. -/
def STATE_LINK : String :=
  "https://github.com/CloudWaddie/ModelWatcher/blob/master/logs/state.json"

/-- `createNewModelsEmbed(endpointName, models)` of webhook.js: with more
than `maxTotal = 20` models it degrades to one field-less count-only
embed pointing at the persisted state; otherwise it enumerates the ids in
fields of at most `maxPerField = 10`.  `relTs` stands for the
`getRelativeTimestamp()` read of the clock. -/
def createNewModelsEmbed (endpointName : String) (models : List JObj)
    (relTs : String) : Payload :=
  let maxPerField := 10
  let maxTotal := 20
  if models.length > maxTotal then
    { username := "Model Watcher",
      embeds := [{
        title := "🆕 New Models Detected",
        description := "**" ++ endpointName ++ "** added **"
          ++ toString models.length ++ "** new models " ++ relTs
          ++ "!\n\nFull list: [logs/state.json](" ++ STATE_LINK ++ ")",
        color := 0x10B981,
        fields := [] }] }
  else
    let fields := (chunksOf maxPerField models).enum.map (fun p =>
      let i := p.1 * maxPerField
      ({ name :=
           (if models.length > maxPerField then
             "New Models (" ++ toString (i + 1) ++ "-"
               ++ toString (min (i + maxPerField) models.length) ++ ")"
           else "New Models"),
         value := "```\n"
           ++ String.intercalate "\n" (p.2.map (fun m => strOf (jget m "id")))
           ++ "\n```" } : EmbedField))
    { username := "Model Watcher",
      embeds := [{
        title := "🆕 New Models Detected",
        description := "**" ++ endpointName ++ "** just added "
          ++ toString models.length ++ " new model"
          ++ (if models.length > 1 then "s" else "") ++ " " ++ relTs ++ "!",
        color := 0x10B981,
        fields := fields }] }

/-- One per-source change record as `main()` passes it to the router:
`summary` is set only for successfully scanned sources (failed sources
get `{error, added: [], removed: [], updated: []}` with no summary). -/
structure ChangeEntry where
  added : List JObj := []
  removed : List JObj := []
  updated : List (JObj × List (String × JValue × JValue)) := []
  summary : Option DiffSummary := none

/-- One webhook dispatch performed by `processNotifications` for a group,
recording the event kind, the source it concerns and the item count of
its embed. -/
inductive Sent where
  | summary (added removed updated : Nat)
  | endpointError (endpoint : String) (error : String)
  | newModels (endpoint : String) (count : Nat)
  | removedModels (endpoint : String) (count : Nat)
  | updatedModels (endpoint : String) (count : Nat)
deriving DecidableEq

/-- JavaScript truthiness of an `error` field. -/
def truthyStr : Option String → Bool
  | some s => s ≠ ""
  | none => false

/-- The dispatch sequence of the `processNotifications` group loop body
(webhook.js), for one group whose webhook is configured: the aggregate
summary (only when the group totals are non-zero), then the endpoint
errors — skipping results with `configured === false` —, then the
new/removed/updated notifications per member source, in source order. -/
def notificationsForGroup (notifyOn : List String)
    (results : List ScanResult) (changes : List (String × ChangeEntry)) :
    List Sent :=
  let totals := changes.foldl (fun (acc : Nat × Nat × Nat) p =>
    match p.2.summary with
    | some s => (acc.1 + s.addedCount, acc.2.1 + s.removedCount,
                 acc.2.2 + s.updatedCount)
    | none => acc) (0, 0, 0)
  let hasChanges := totals.1 > 0 || totals.2.1 > 0 || totals.2.2 > 0
  (if hasChanges && notifyOn.contains "summary_with_changes" then
    [Sent.summary totals.1 totals.2.1 totals.2.2]
   else []) ++
  (if notifyOn.contains "endpoint_error" then
    results.filterMap (fun r =>
      if !r.success && truthyStr r.error && r.configured == some false then
        none
      else if !r.success && truthyStr r.error then
        some (Sent.endpointError r.endpoint (r.error.getD ""))
      else none)
   else []) ++
  (if notifyOn.contains "new_model" then
    changes.filterMap (fun p =>
      if p.2.added.length > 0 then some (Sent.newModels p.1 p.2.added.length)
      else none)
   else []) ++
  (if notifyOn.contains "removed_model" then
    changes.filterMap (fun p =>
      if p.2.removed.length > 0 then
        some (Sent.removedModels p.1 p.2.removed.length)
      else none)
   else []) ++
  (if notifyOn.contains "model_updated" then
    changes.filterMap (fun p =>
      if p.2.updated.length > 0 then
        some (Sent.updatedModels p.1 p.2.updated.length)
      else none)
   else [])

/-!
## Verified properties
-/

/-- C10: for every pair of input record lists the `compareModels` result is
internally consistent — each summary count equals the length of the
corresponding list. -/
theorem compareModels_summary_consistent (oldModels newModels : List JObj) :
    (compareModels oldModels newModels).summary.addedCount
        = (compareModels oldModels newModels).added.length ∧
    (compareModels oldModels newModels).summary.removedCount
        = (compareModels oldModels newModels).removed.length ∧
    (compareModels oldModels newModels).summary.updatedCount
        = (compareModels oldModels newModels).updated.length :=
  ⟨rfl, rfl, rfl⟩

/-- A result whose endpoint had no API key configured
(`fetchModels`' missing-credential path). -/
def unconfiguredScanResult : ScanResult :=
  { endpoint := "OpenAI", success := false, configured := some false,
    error := some "API key not found in env variable: OPENAI_API_KEY" }

/-- C4: the run is claimed to exit successfully when all sources are
merely unconfigured, but `main()` computes `results.every(r => !r.success)`
— which is true for an all-unconfigured run, since the missing-credential
outcome also carries `success: false` — and exits 1, contradicting the
code's own comment ("Exit 0 if: at least one succeeded OR no API keys
were configured"). -/
theorem mainExitCode_all_unconfigured_exits_one :
    mainExitCode [unconfiguredScanResult] = 1 := rfl

/-- A previously persisted record for id `a` (timestamps stripped state
would lack `created`; this counterexample uses the claim's own premise of
two records differing only in `created`). -/
def tsOldModel : JObj := [("id", JValue.str "a"), ("created", JValue.num 100)]

/-- The same record after only its `created` timestamp ticked over. -/
def tsNewModel : JObj := [("id", JValue.str "a"), ("created", JValue.num 200)]

/-- C2: two records sharing id `a` and differing only in the volatile
`created` field are claimed to produce no `updated` entry, but
`getModelChanges` compares every key of either record — `created`
included — so `compareModels` reports the record as updated.  This
contradicts logger.js's own comment ("The 'created' field is already
ignored in comparison (scanner.js)"). -/
theorem compareModels_fires_on_timestamp_only_change :
    (compareModels [tsOldModel] [tsNewModel]).updated =
      [(tsNewModel, [("created", JValue.num 100, JValue.num 200)])] ∧
    (compareModels [tsOldModel] [tsNewModel]).summary.updatedCount = 1 :=
  ⟨rfl, rfl⟩

/-- Every fetch attempt of this source returns the missing-credential
failure. -/
def unconfiguredFetch : Nat → FetchOutcome := fun _ =>
  { success := false, configured := some false,
    error := some "API key not found in env variable: OPENAI_API_KEY" }

/-- C3 counterexample: with `retryAttempts = 2` and a `configured:false`
failure on every attempt, the loop performs 4 `fetchModels` calls — the
claimed terminal treatment of `configured:false` would allow only 1, and
the claimed `R+1` total would allow 3. -/
theorem scanEndpointOne_unconfigured_retried_counterexample :
    (scanEndpointOne unconfiguredFetch 2).2 = 4 ∧
    (4 : Nat) ≠ 2 + 1 ∧ (4 : Nat) ≠ 1 :=
  ⟨rfl, by decide, by decide⟩

/-- The retry loop starting at `attempt = a` with `fuel` iterations left:
when every in-loop attempt fails, it falls through to the extra
post-loop fetch. -/
theorem scanGo_all_fail (fetch : Nat → FetchOutcome) :
    ∀ (fuel a : Nat),
      (∀ i, a ≤ i → i < a + fuel → (fetch i).success = false) →
      scanGo fetch a fuel = (fetch (a + fuel), a + fuel + 1)
  | 0, a, _ => by simp [scanGo]
  | fuel + 1, a, h => by
    have hfa : (fetch a).success = false := h a (Nat.le_refl a) (by omega)
    have ih := scanGo_all_fail fetch fuel (a + 1)
      (fun i h1 h2 => h i (by omega) (by omega))
    have he : a + 1 + fuel = a + (fuel + 1) := by omega
    rw [he] at ih
    simpa [scanGo, hfa] using ih

/-- C3 (amended): a `configured:false` failure is retried like any other
failure, and a source for which every attempt fails returns the result of
an extra fresh fetch performed after the retry loop, for `R + 2` total
fetch attempts (not `R + 1`). -/
theorem scanEndpointOne_all_attempts_fail (fetch : Nat → FetchOutcome)
    (R : Nat) (h : ∀ i, i ≤ R → (fetch i).success = false) :
    scanEndpointOne fetch R = (fetch (R + 1), R + 2) := by
  have hgo := scanGo_all_fail fetch (R + 1) 0 (fun i _ h2 => h i (by omega))
  simpa [scanEndpointOne] using hgo

/-- C3 witness: the amended theorem at the concrete always-unconfigured
fetch with `retryAttempts = 1`. -/
theorem scanEndpointOne_all_attempts_fail_witness :
    scanEndpointOne unconfiguredFetch 1 = (unconfiguredFetch 2, 3) :=
  scanEndpointOne_all_attempts_fail unconfiguredFetch 1 (fun _ _ => rfl)

/-- C8: for every source whose new-model count exceeds the
"too many to enumerate" threshold of 20, `createNewModelsEmbed` renders a
single embed with no enumeration fields whose description carries the
count and the pointer to the full persisted `logs/state.json` — not
multiple enumerated groupings. -/
theorem createNewModelsEmbed_degrades_to_count_only (endpointName : String)
    (models : List JObj) (relTs : String) (h : models.length > 20) :
    ∃ e, (createNewModelsEmbed endpointName models relTs).embeds = [e] ∧
      e.fields = [] ∧
      e.description = "**" ++ endpointName ++ "** added **"
        ++ toString models.length ++ "** new models " ++ relTs
        ++ "!\n\nFull list: [logs/state.json](" ++ STATE_LINK ++ ")" := by
  simp only [createNewModelsEmbed]
  rw [if_pos h]
  exact ⟨_, rfl, rfl, rfl⟩

/-- One new record as the renderer receives it. -/
def newRecord : JObj := [("id", JValue.str "m")]

/-- C8 witness: the spec's scenario — 60 new records render as the single
count-only embed. -/
theorem createNewModelsEmbed_degrades_to_count_only_witness :
    (List.replicate 60 newRecord).length > 20 ∧
    (∃ e, (createNewModelsEmbed "Groq" (List.replicate 60 newRecord)
        "<t:0:R>").embeds = [e] ∧
      e.fields = [] ∧
      e.description = "**" ++ "Groq" ++ "** added **"
        ++ toString (List.replicate 60 newRecord).length ++ "** new models "
        ++ "<t:0:R>"
        ++ "!\n\nFull list: [logs/state.json](" ++ STATE_LINK ++ ")") :=
  ⟨by decide,
   createNewModelsEmbed_degrades_to_count_only "Groq"
     (List.replicate 60 newRecord) "<t:0:R>" (by decide)⟩

/-- Membership in a guard that yields the empty list when its condition is
off. -/
theorem mem_of_mem_ite_nil {α : Type} {c : Prop} [Decidable c]
    {l : List α} {x : α} (h : x ∈ (if c then l else [])) : x ∈ l := by
  split at h
  · exact h
  · simp at h

/-- C9: every `endpoint_error` dispatch of the `processNotifications`
group loop arises from a failed result that is not `configured === false`
— an Outcome with a missing credential never triggers an
`endpoint_error` notification, even with the event kind enabled. -/
theorem notificationsForGroup_never_errors_for_unconfigured
    (notifyOn : List String) (results : List ScanResult)
    (changes : List (String × ChangeEntry)) (ep err : String)
    (hmem : Sent.endpointError ep err
      ∈ notificationsForGroup notifyOn results changes) :
    ∃ r ∈ results, r.endpoint = ep ∧ r.success = false ∧
      truthyStr r.error = true ∧ r.configured ≠ some false := by
  simp only [notificationsForGroup, List.mem_append] at hmem
  rcases hmem with ((((h | h) | h) | h) | h)
  · have := mem_of_mem_ite_nil h
    simp at this
  · have := mem_of_mem_ite_nil h
    rcases List.mem_filterMap.mp this with ⟨r, hr, hfr⟩
    refine ⟨r, hr, ?_⟩
    split at hfr
    · simp at hfr
    · split at hfr
      · rename_i hc1 hc2
        have hc2' : r.success = false ∧ truthyStr r.error = true := by
          simpa using hc2
        injection hfr with hfr2
        injection hfr2 with he1 he2
        refine ⟨he1, hc2'.1, hc2'.2, ?_⟩
        intro hcf
        apply hc1
        simp [hc2'.1, hc2'.2, hcf]
      · simp at hfr
  · have := mem_of_mem_ite_nil h
    rcases List.mem_filterMap.mp this with ⟨p, _, hfp⟩
    split at hfp
    · simp at hfp
    · simp at hfp
  · have := mem_of_mem_ite_nil h
    rcases List.mem_filterMap.mp this with ⟨p, _, hfp⟩
    split at hfp
    · simp at hfp
    · simp at hfp
  · have := mem_of_mem_ite_nil h
    rcases List.mem_filterMap.mp this with ⟨p, _, hfp⟩
    split at hfp
    · simp at hfp
    · simp at hfp

/-- A failed result from a configured source (HTTP failure, credential
present). -/
def failedConfiguredResult : ScanResult :=
  { endpoint := "X", success := false, error := some "HTTP 500" }

/-- C9 witness: the theorem applied to the one `endpoint_error` dispatch
of a concrete group run. -/
theorem notificationsForGroup_never_errors_for_unconfigured_witness :
    ∃ r ∈ [failedConfiguredResult], r.endpoint = "X" ∧ r.success = false ∧
      truthyStr r.error = true ∧ r.configured ≠ some false :=
  notificationsForGroup_never_errors_for_unconfigured
    ["endpoint_error"] [failedConfiguredResult] [] "X" "HTTP 500" (by decide)

/-- Reading a key after a JavaScript object assignment: the assigned key
reads back the new value, every other key is untouched. -/
theorem alookup_oset {β : Type} (l : List (String × β)) (k e : String)
    (v : β) :
    alookup (oset l k v) e = if e = k then some v else alookup l e := by
  induction l with
  | nil =>
    by_cases he : e = k
    · simp [oset, alookup, he]
    · simp [oset, alookup, he]
  | cons hd tl ih =>
    obtain ⟨k0, v0⟩ := hd
    by_cases hk : k0 = k
    · subst hk
      by_cases he : e = k0
      · simp [oset, alookup, he]
      · simp [oset, alookup, he]
    · by_cases he : e = k0
      · subst he
        simp [oset, alookup, beq_eq_false_iff_ne.mpr hk, hk, ih]
      · simp [oset, alookup, beq_eq_false_iff_ne.mpr hk,
          beq_eq_false_iff_ne.mpr he, ih]

/-- The last result of the list carrying the given endpoint name — the
one whose entry survives in the rebuilt state object. -/
def lastWrite (e : String) : List ScanResult → Option ScanResult
  | [] => none
  | r :: rest =>
    match lastWrite e rest with
    | some r2 => some r2
    | none => if r.endpoint == e then some r else none

/-- A surviving write is a member with the looked-up endpoint. -/
theorem lastWrite_mem (e : String) :
    ∀ (l : List ScanResult) (r : ScanResult),
      lastWrite e l = some r → r ∈ l ∧ r.endpoint = e := by
  intro l
  induction l with
  | nil => intro r h; simp [lastWrite] at h
  | cons r0 rest ih =>
    intro r h
    cases hlw : lastWrite e rest with
    | some r2 =>
      rw [lastWrite, hlw] at h
      injection h with h2
      subst h2
      exact ⟨List.mem_cons_of_mem r0 (ih r2 hlw).1, (ih r2 hlw).2⟩
    | none =>
      rw [lastWrite, hlw] at h
      by_cases hr0 : (r0.endpoint == e) = true
      · rw [if_pos hr0] at h
        injection h with h2
        subst h2
        exact ⟨List.mem_cons_self r0 rest, by simpa using hr0⟩
      · rw [if_neg hr0] at h
        simp at h

/-- No surviving write means no result carries the endpoint. -/
theorem lastWrite_none (e : String) :
    ∀ (l : List ScanResult), lastWrite e l = none →
      ∀ x ∈ l, x.endpoint ≠ e := by
  intro l
  induction l with
  | nil => intro _ x hx; simp at hx
  | cons r0 rest ih =>
    intro h x hx
    cases hlw : lastWrite e rest with
    | some r2 => rw [lastWrite, hlw] at h; simp at h
    | none =>
      rw [lastWrite, hlw] at h
      by_cases hr0 : (r0.endpoint == e) = true
      · rw [if_pos hr0] at h; simp at h
      · rcases List.mem_cons.mp hx with h2 | h2
        · subst h2
          simpa using hr0
        · exact ih hlw x h2

/-- Reading the rebuilt `state.endpoints` object: the entry of the last
result carrying the key, or the initial accumulator's binding. -/
theorem alookup_saveState_fold (results : List ScanResult) :
    ∀ (init : List (String × StateEntry)) (e : String),
      alookup (results.foldl
          (fun st r => oset st r.endpoint (resultEntry r)) init) e =
        match lastWrite e results with
        | some r => some (resultEntry r)
        | none => alookup init e := by
  induction results with
  | nil => intro init e; rfl
  | cons r0 rest ih =>
    intro init e
    simp only [List.foldl_cons]
    rw [ih]
    cases hlw : lastWrite e rest with
    | some r2 => simp [lastWrite, hlw]
    | none =>
      simp only [lastWrite, hlw]
      rw [alookup_oset]
      by_cases he : e = r0.endpoint
      · rw [if_pos he, if_pos (show (r0.endpoint == e) = true by simp [he])]
      · have hb : ¬(r0.endpoint == e) = true := by
          simp only [beq_iff_eq]
          exact fun h2 => he h2.symm
        rw [if_neg he, if_neg hb]

/-- With unique endpoint names the surviving write is the result itself. -/
theorem lastWrite_of_unique (results : List ScanResult) (r : ScanResult)
    (hmem : r ∈ results)
    (huniq : ∀ r2 ∈ results, r2.endpoint = r.endpoint → r2 = r) :
    lastWrite r.endpoint results = some r := by
  induction results with
  | nil => simp at hmem
  | cons r0 rest ih =>
    cases hlw : lastWrite r.endpoint rest with
    | some r2 =>
      have hp := lastWrite_mem r.endpoint rest r2 hlw
      have h2 : r2 = r := huniq r2 (List.mem_cons_of_mem r0 hp.1) hp.2
      rw [lastWrite, hlw, h2]
    | none =>
      have hr0 : r = r0 := by
        rcases List.mem_cons.mp hmem with h | h
        · exact h
        · exact absurd rfl (lastWrite_none r.endpoint rest hlw r h)
      subst hr0
      rw [lastWrite, hlw, if_pos (by simp)]

/-- C1 (amended): `saveState` rebuilds the persisted state from the
current results alone, writing an entry for every scanned source —
failures included; with unique endpoint names each source's persisted
entry is exactly `{success, models: stripTimestamps(models || []),
error}` of its current result, so a failed source's entry holds
`success: false` and an empty model list instead of its prior
snapshot. -/
theorem saveState_writes_every_result (results : List ScanResult)
    (r : ScanResult) (hmem : r ∈ results)
    (huniq : ∀ r2 ∈ results, r2.endpoint = r.endpoint → r2 = r) :
    lookupEntry (saveState results) r.endpoint = some (resultEntry r) := by
  unfold lookupEntry saveState
  rw [alookup_saveState_fold]
  rw [lastWrite_of_unique results r hmem huniq]

/-- The previously persisted state for the `OpenAI` source, holding one
record. -/
def priorState : List (String × StateEntry) :=
  [("OpenAI", { success := true, models := [[("id", JValue.str "gpt-4")]],
                error := none })]

/-- The `OpenAI` source's scan failed this run (transient HTTP error). -/
def failedScanResult : ScanResult :=
  { endpoint := "OpenAI", success := false,
    error := some "HTTP 500: Internal Server Error" }

/-- C1 counterexample: committing the state after a failed scan is claimed
to leave the source's persisted snapshot untouched, but `saveState`
replaces it with a fresh entry whose model list is empty — the prior
one-record snapshot is gone, so the next successful scan diffs against
`[]`. -/
theorem saveState_overwrites_failed_source_counterexample :
    lookupEntry (saveState [failedScanResult]) "OpenAI" =
      some { success := false, models := [],
             error := some "HTTP 500: Internal Server Error" } ∧
    (lookupEntry priorState "OpenAI").map StateEntry.models =
      some [[("id", JValue.str "gpt-4")]] ∧
    ([] : List JObj) ≠ [[("id", JValue.str "gpt-4")]] :=
  ⟨rfl, rfl, by simp⟩

/-- A successfully scanned source in the same run. -/
def succeededScanResult : ScanResult :=
  { endpoint := "Groq", success := true,
    models := some [[("id", JValue.str "g1")]] }

/-- C1 witness: the amended theorem at a concrete two-source run, read at
the failed source. -/
theorem saveState_writes_every_result_witness :
    lookupEntry (saveState [succeededScanResult, failedScanResult])
        failedScanResult.endpoint = some (resultEntry failedScanResult) :=
  saveState_writes_every_result [succeededScanResult, failedScanResult]
    failedScanResult (by simp)
    (by
      intro r2 h2 hep
      rcases List.mem_cons.mp h2 with h | h
      · subst h
        exact absurd hep (by simp [succeededScanResult, failedScanResult])
      · simpa using h)

/-- An arbitrary endpoint configuration (normalization reads only the
name). -/
def anyEndpoint : Endpoint := { name := "OpenAI" }

/-- C6 counterexample: `normalize` is claimed total on every well-formed
JSON input including `null`, but `normalizeModels(null, endpoint)` throws
a `TypeError` on the very first property access `data.data`. -/
theorem normalizeModels_throws_on_null_counterexample :
    normalizeModels JValue.null anyEndpoint =
      .error "TypeError: cannot read properties of null" := rfl

/-- C6 (amended): `normalizeModels` throws on `null`/`undefined` input
(and its id sort can throw when a multi-entry recognized shape yields a
non-string id); every other well-formed JSON payload whose shape is not
recognized — no array under `data`, not itself an array, no array under
`models` — normalizes to the empty record sequence without throwing. -/
theorem normalizeModels_unrecognized_shape_empty (data : JValue)
    (ep : Endpoint) (hnn : data ≠ JValue.null) (hnu : data ≠ JValue.undefined)
    (h1 : isArr (jgetV data "data") = false)
    (h2 : isArr data = false)
    (h3 : isArr (jgetV data "models") = false) :
    normalizeModels data ep = .ok [] := by
  cases data with
  | null => exact absurd rfl hnn
  | undefined => exact absurd rfl hnu
  | bool b => simp [normalizeModels, h1, h2, h3, sortById]
  | num n => simp [normalizeModels, h1, h2, h3, sortById]
  | str s => simp [normalizeModels, h1, h2, h3, sortById]
  | arr xs => simp [isArr] at h2
  | obj fs => simp [normalizeModels, h1, h2, h3, sortById]

/-- C6 witness: the amended theorem at the scalar payload `42`. -/
theorem normalizeModels_unrecognized_shape_empty_witness :
    normalizeModels (JValue.num 42) anyEndpoint = .ok [] :=
  normalizeModels_unrecognized_shape_empty (JValue.num 42) anyEndpoint
    (by simp) (by simp) rfl rfl rfl

mutual
/-- Every sensitive key at any depth of the value reads `[REDACTED]`. -/
def redactedV : JValue → Prop
  | .obj fs => redactedF fs
  | .arr xs => redactedA xs
  | _ => True
/-- The field-list form of `redactedV`. -/
def redactedF : List (String × JValue) → Prop
  | [] => True
  | (k, v) :: rest =>
    (sensitiveKey k = true → v = .str "[REDACTED]") ∧
    (sensitiveKey k = false → redactedV v) ∧ redactedF rest
/-- The array form of `redactedV`. -/
def redactedA : List JValue → Prop
  | [] => True
  | v :: rest => redactedV v ∧ redactedA rest
end

mutual
/-- `sanitizeObject` output satisfies `redactedV`. -/
theorem redactedV_sanitizeObject : ∀ v, redactedV (sanitizeObject v)
  | .undefined => trivial
  | .null => trivial
  | .bool _ => trivial
  | .num _ => trivial
  | .str _ => trivial
  | .arr xs => redactedA_sanitizeArr xs
  | .obj fs => redactedF_sanitizeFields fs
/-- `sanitizeEntryVal` output satisfies `redactedV`. -/
theorem redactedV_sanitizeEntryVal : ∀ v, redactedV (sanitizeEntryVal v)
  | .undefined => trivial
  | .null => trivial
  | .bool _ => trivial
  | .num _ => trivial
  | .str _ => trivial
  | .arr xs => redactedA_sanitizeArr xs
  | .obj fs => redactedF_sanitizeFields fs
/-- `sanitizeFields` output satisfies `redactedF`. -/
theorem redactedF_sanitizeFields : ∀ fs, redactedF (sanitizeFields fs)
  | [] => trivial
  | (k, v) :: rest => by
    rw [sanitizeFields]
    by_cases hs : sensitiveKey k = true
    · rw [if_pos hs]
      exact ⟨fun _ => rfl, fun _ => trivial, redactedF_sanitizeFields rest⟩
    · rw [if_neg hs]
      refine ⟨fun ht => absurd ht hs, fun _ => redactedV_sanitizeEntryVal v,
        redactedF_sanitizeFields rest⟩
/-- `sanitizeArr` output satisfies `redactedA`. -/
theorem redactedA_sanitizeArr : ∀ xs, redactedA (sanitizeArr xs)
  | [] => trivial
  | v :: rest =>
    ⟨redactedV_sanitizeEntryVal v, redactedA_sanitizeArr rest⟩
end

/-- C7 (amended): every persisted scan-log artifact passes through
`sanitizeObject`, which replaces the value of any key whose name contains
"key", "token", "secret", "password", "auth" or "bearer" with
`[REDACTED]` at every nesting depth; string values under non-sensitive
keys are only scrubbed of the implemented patterns (tokens prefixed by
sk-, AKIA or eyJ, quoted api_key and bearer pairs, `Authorization:
Bearer` headers) — a bare `Bearer <token>` string value is not
redacted. -/
theorem sanitizeObject_redacts_sensitive_keys (v : JValue) :
    redactedV (sanitizeObject v) :=
  redactedV_sanitizeObject v

/-- A log value holding a bearer token under a non-sensitive key. -/
def bearerLogValue : JValue :=
  .obj [("note", .str "Bearer abc123DEF456")]

/-- C7 counterexample: the artifact is claimed to contain no unredacted
`"Bearer " <token>` substring, but `sanitizeObject` passes this value
through unchanged — only `Authorization:`-prefixed bearer patterns are
scrubbed, and the dead `API_KEY_PATTERNS` list is never applied. -/
theorem sanitizeObject_misses_bare_bearer_counterexample :
    sanitizeObject bearerLogValue = bearerLogValue ∧
    containsStr "Bearer abc123DEF456" "Bearer " = true :=
  ⟨rfl, rfl⟩

/-- `alookup` misses a key carried by no entry. -/
theorem alookup_eq_none_of_not_mem {β : Type} (l : List (String × β))
    (k : String) (h : k ∉ l.map Prod.fst) : alookup l k = none := by
  induction l with
  | nil => rfl
  | cons hd tl ih =>
    obtain ⟨k0, v0⟩ := hd
    simp only [List.map_cons, List.mem_cons] at h
    push_neg at h
    have hk : (k == k0) = false := beq_eq_false_iff_ne.mpr h.1
    simp [alookup, hk, ih h.2]

/-- With duplicate-free keys, `alookup` returns exactly the binding the
list carries. -/
theorem alookup_eq_some_of_mem_nodup {β : Type} (l : List (String × β))
    (k : String) (v : β) (hnd : (l.map Prod.fst).Nodup)
    (hmem : (k, v) ∈ l) : alookup l k = some v := by
  induction l with
  | nil => simp at hmem
  | cons hd tl ih =>
    obtain ⟨k0, v0⟩ := hd
    simp only [List.map_cons, List.nodup_cons] at hnd
    rcases List.mem_cons.mp hmem with h | h
    · injection h with h1 h2
      subst h1
      subst h2
      simp [alookup]
    · have hne : k ≠ k0 := by
        intro he
        subst he
        exact hnd.1 (List.mem_map_of_mem Prod.fst h)
      simp [alookup, beq_eq_false_iff_ne.mpr hne, ih hnd.2 h]

/-- Folding a duplicate-free field list into a base object by assignment:
the folded keys win, everything else falls through to the base. -/
theorem alookup_foldl_oset {β : Type} (mf : List (String × β)) :
    ∀ (base : List (String × β)) (k : String),
      (mf.map Prod.fst).Nodup →
      alookup (mf.foldl (fun acc p => oset acc p.1 p.2) base) k =
        match alookup mf k with
        | some v => some v
        | none => alookup base k := by
  induction mf with
  | nil => intro base k _; rfl
  | cons hd rest ih =>
    intro base k hnd
    obtain ⟨k0, v0⟩ := hd
    simp only [List.map_cons, List.nodup_cons] at hnd
    simp only [List.foldl_cons]
    rw [ih (oset base k0 v0) k hnd.2]
    by_cases hk : k = k0
    · subst hk
      rw [alookup_eq_none_of_not_mem rest k hnd.1]
      rw [alookup_oset]
      rw [if_pos rfl]
      simp [alookup]
    · have hb : (k == k0) = false := beq_eq_false_iff_ne.mpr hk
      rw [alookup_oset, if_neg hk]
      cases hr : alookup rest k with
      | some v => simp [alookup, hb, hr]
      | none => simp [alookup, hb, hr]

/-- Reading a key of an object spread over a literal: the spread object's
own binding wins, missing keys fall back to the literal. -/
theorem jget_ospread_obj (base : JObj) (mf : JObj) (k : String)
    (hnd : (mf.map Prod.fst).Nodup) :
    jget (ospread base (.obj mf)) k =
      match alookup mf k with
      | some v => v
      | none => jget base k := by
  unfold ospread jget
  rw [alookup_foldl_oset mf base k hnd]
  cases alookup mf k with
  | some v => rfl
  | none => rfl

/-- Every original field of a spread entry reads back verbatim from the
OpenAI-branch record. -/
theorem jget_openAIRecordOf (mf : JObj) (hnd : (mf.map Prod.fst).Nodup)
    (k : String) (v : JValue) (hkv : (k, v) ∈ mf) :
    jget (openAIRecordOf (.obj mf)) k = v := by
  unfold openAIRecordOf
  rw [jget_ospread_obj _ mf k hnd]
  rw [alookup_eq_some_of_mem_nodup mf k v hnd hkv]

/-- The OpenAI-branch record's id is the entry's own id. -/
theorem jget_openAIRecordOf_id (mf : JObj)
    (hnd : (mf.map Prod.fst).Nodup) :
    jget (openAIRecordOf (.obj mf)) "id" = jget mf "id" := by
  unfold openAIRecordOf
  rw [jget_ospread_obj _ mf "id" hnd]
  cases h : alookup mf "id" with
  | some v => simp [jget, jgetV, alookup, h]
  | none => simp [jget, jgetV, alookup, h]

/-- Mapping the OpenAI normalizer over object entries never throws. -/
theorem mapExcept_openAI_ok (entries : List JValue)
    (hent : ∀ m ∈ entries, ∃ mf, m = JValue.obj mf) :
    mapExcept normOpenAIEntry entries =
      .ok (entries.map openAIRecordOf) := by
  induction entries with
  | nil => rfl
  | cons m rest ih =>
    obtain ⟨mf, hm⟩ := hent m (List.mem_cons_self m rest)
    subst hm
    have ihr := ih (fun m2 h2 => hent m2 (List.mem_cons_of_mem _ h2))
    simp only [mapExcept, ihr, List.map_cons]
    rfl

/-- Membership through sorted insertion. -/
theorem mem_insertLe {α : Type} (le : α → α → Bool) (x y : α) :
    ∀ (l : List α), x ∈ insertLe le y l ↔ x = y ∨ x ∈ l := by
  intro l
  induction l with
  | nil => simp [insertLe]
  | cons z zs ih =>
    by_cases h : le y z = true
    · simp [insertLe, h, List.mem_cons]
    · simp only [insertLe, if_neg h, List.mem_cons, ih]
      tauto

/-- Sorting permutes membership. -/
theorem mem_sortLe {α : Type} (le : α → α → Bool) (x : α) :
    ∀ (l : List α), x ∈ sortLe le l ↔ x ∈ l := by
  intro l
  induction l with
  | nil => simp [sortLe]
  | cons z zs ih =>
    simp only [sortLe, mem_insertLe, List.mem_cons, ih]

/-- The id sort returns normally on all-string ids, preserving
membership. -/
theorem sortById_ok_of_string_ids (l : List JObj)
    (h : ∀ r ∈ l, isStr (recId r) = true) :
    ∃ out, sortById l = .ok out ∧ ∀ r, r ∈ out ↔ r ∈ l := by
  unfold sortById
  by_cases hlen : l.length ≤ 1
  · rw [if_pos hlen]
    exact ⟨l, rfl, fun r => Iff.rfl⟩
  · rw [if_neg hlen]
    rw [if_pos (List.all_eq_true.mpr h)]
    exact ⟨_, rfl, fun r => mem_sortLe _ r l⟩

/-- The `data`-array (OpenAI) family preserves every entry field
verbatim in its normalized record. -/
theorem normalizeModels_data_family_preserves_fields (ep : Endpoint)
    (fs : JObj) (entries : List JValue)
    (hdata : alookup fs "data" = some (JValue.arr entries))
    (hent : ∀ m ∈ entries, ∃ mf, m = JValue.obj mf ∧
      (mf.map Prod.fst).Nodup)
    (hid : ∀ m ∈ entries, isStr (jgetV m "id") = true) :
    ∃ out, normalizeModels (JValue.obj fs) ep = .ok out ∧
      ∀ mf, JValue.obj mf ∈ entries →
        ∃ r ∈ out, ∀ k v, (k, v) ∈ mf → jget r k = v := by
  have hda : jgetV (JValue.obj fs) "data" = JValue.arr entries := by
    simp [jgetV, jget, hdata]
  have hmapped := mapExcept_openAI_ok entries
    (fun m hm => ⟨(hent m hm).choose, (hent m hm).choose_spec.1⟩)
  have hidm : ∀ r ∈ entries.map openAIRecordOf, isStr (recId r) = true := by
    intro r hr
    rcases List.mem_map.mp hr with ⟨m, hm, hrm⟩
    obtain ⟨mf, hmf, hnd⟩ := hent m hm
    subst hmf
    subst hrm
    have : recId (openAIRecordOf (JValue.obj mf)) = jget mf "id" :=
      jget_openAIRecordOf_id mf hnd
    rw [recId] at this
    rw [recId, this]
    simpa [jgetV] using hid _ hm
  obtain ⟨out, hout, hmemiff⟩ :=
    sortById_ok_of_string_ids (entries.map openAIRecordOf) hidm
  refine ⟨out, ?_, ?_⟩
  · simp only [normalizeModels, hda, isArr, elemsOf, if_pos]
    rw [hmapped]
    exact hout
  · intro mf hmf
    obtain ⟨mf2, heq, hnd⟩ := hent _ hmf
    injection heq with heq2
    subst heq2
    refine ⟨openAIRecordOf (JValue.obj mf), ?_, ?_⟩
    · exact (hmemiff _).mpr (List.mem_map_of_mem openAIRecordOf hmf)
    · intro k v hkv
      exact jget_openAIRecordOf mf hnd k v hkv

/-- A `data`-family entry carrying the unmapped provider field `ctx`. -/
def openAIEntryFields : JObj := [("id", JValue.str "m1"), ("ctx", JValue.num 8)]

/-- The payload `{data: [entry]}` around it. -/
def openAIPayloadFields : JObj :=
  [("data", JValue.arr [JValue.obj openAIEntryFields])]

/-- Spread records read back every field of the spread entry verbatim,
whatever the literal underneath. -/
theorem jget_ospread_of_mem (base : JObj) (mf : JObj)
    (hnd : (mf.map Prod.fst).Nodup) (k : String) (v : JValue)
    (hkv : (k, v) ∈ mf) : jget (ospread base (.obj mf)) k = v := by
  rw [jget_ospread_obj base mf k hnd]
  rw [alookup_eq_some_of_mem_nodup mf k v hnd hkv]

/-- A spread record's id is the entry's own id whenever that id is a
string (so in particular present). -/
theorem jget_ospread_id_of_isStr (base : JObj) (mf : JObj)
    (hnd : (mf.map Prod.fst).Nodup)
    (hs : isStr (jget mf "id") = true) :
    jget (ospread base (.obj mf)) "id" = jget mf "id" := by
  rw [jget_ospread_obj base mf "id" hnd]
  cases h : alookup mf "id" with
  | some v => simp [jget, h]
  | none => simp [jget, h, isStr] at hs

/-- Mapping an entry normalizer that succeeds on objects over object
entries never throws. -/
theorem mapExcept_ok_of_objs (f : JValue → Except String JObj)
    (g : JValue → JObj)
    (hfg : ∀ mf, f (JValue.obj mf) = .ok (g (JValue.obj mf)))
    (entries : List JValue)
    (hent : ∀ m ∈ entries, ∃ mf, m = JValue.obj mf) :
    mapExcept f entries = .ok (entries.map g) := by
  induction entries with
  | nil => rfl
  | cons m rest ih =>
    obtain ⟨mf, hm⟩ := hent m (List.mem_cons_self m rest)
    subst hm
    have ihr := ih (fun m2 h2 => hent m2 (List.mem_cons_of_mem _ h2))
    simp only [mapExcept, hfg, ihr, List.map_cons]
    rfl

/-- The GitHub Models array family preserves every entry field verbatim
in its normalized record. -/
theorem normalizeModels_github_family_preserves_fields (ep : Endpoint)
    (entries : List JValue)
    (hname : ep.name = "GitHub Models")
    (hent : ∀ m ∈ entries, ∃ mf, m = JValue.obj mf ∧
      (mf.map Prod.fst).Nodup)
    (hid : ∀ m ∈ entries, isStr (jgetV m "id") = true) :
    ∃ out, normalizeModels (JValue.arr entries) ep = .ok out ∧
      ∀ mf, JValue.obj mf ∈ entries →
        ∃ r ∈ out, ∀ k v, (k, v) ∈ mf → jget r k = v := by
  have hmapped := mapExcept_ok_of_objs normGitHubEntry gitHubRecordOf
    (fun _ => rfl) entries
    (fun m hm => ⟨(hent m hm).choose, (hent m hm).choose_spec.1⟩)
  have hidm : ∀ r ∈ entries.map gitHubRecordOf, isStr (recId r) = true := by
    intro r hr
    rcases List.mem_map.mp hr with ⟨m, hm, hrm⟩
    obtain ⟨mf, hmf, hnd⟩ := hent m hm
    subst hmf
    subst hrm
    have hs : isStr (jget mf "id") = true := by simpa [jgetV] using hid _ hm
    have hrec : jget (gitHubRecordOf (JValue.obj mf)) "id" = jget mf "id" :=
      jget_ospread_id_of_isStr _ mf hnd hs
    rw [recId, hrec]
    exact hs
  obtain ⟨out, hout, hmemiff⟩ :=
    sortById_ok_of_string_ids (entries.map gitHubRecordOf) hidm
  refine ⟨out, ?_, ?_⟩
  · simp only [normalizeModels, jgetV, isArr, elemsOf, hname,
      beq_self_eq_true, Bool.true_and, Bool.false_eq_true, if_false, if_true]
    rw [hmapped]
    exact hout
  · intro mf hmf
    obtain ⟨mf2, heq, hnd⟩ := hent _ hmf
    injection heq with heq2
    subst heq2
    refine ⟨gitHubRecordOf (JValue.obj mf), ?_, ?_⟩
    · exact (hmemiff _).mpr (List.mem_map_of_mem gitHubRecordOf hmf)
    · intro k v hkv
      exact jget_ospread_of_mem _ mf hnd k v hkv

/-- The bare-array family preserves every entry field verbatim in its
normalized record. -/
theorem normalizeModels_bare_family_preserves_fields (ep : Endpoint)
    (entries : List JValue)
    (hname : ep.name ≠ "GitHub Models")
    (hent : ∀ m ∈ entries, ∃ mf, m = JValue.obj mf ∧
      (mf.map Prod.fst).Nodup)
    (hid : ∀ m ∈ entries, isStr (jgetV m "id") = true) :
    ∃ out, normalizeModels (JValue.arr entries) ep = .ok out ∧
      ∀ mf, JValue.obj mf ∈ entries →
        ∃ r ∈ out, ∀ k v, (k, v) ∈ mf → jget r k = v := by
  have hmapped := mapExcept_ok_of_objs normBareEntry bareRecordOf
    (fun _ => rfl) entries
    (fun m hm => ⟨(hent m hm).choose, (hent m hm).choose_spec.1⟩)
  have hidm : ∀ r ∈ entries.map bareRecordOf, isStr (recId r) = true := by
    intro r hr
    rcases List.mem_map.mp hr with ⟨m, hm, hrm⟩
    obtain ⟨mf, hmf, hnd⟩ := hent m hm
    subst hmf
    subst hrm
    have hs : isStr (jget mf "id") = true := by simpa [jgetV] using hid _ hm
    have hrec : jget (bareRecordOf (JValue.obj mf)) "id" = jget mf "id" :=
      jget_ospread_id_of_isStr _ mf hnd hs
    rw [recId, hrec]
    exact hs
  obtain ⟨out, hout, hmemiff⟩ :=
    sortById_ok_of_string_ids (entries.map bareRecordOf) hidm
  refine ⟨out, ?_, ?_⟩
  · have hb : (ep.name == "GitHub Models") = false :=
      beq_eq_false_iff_ne.mpr hname
    simp only [normalizeModels, jgetV, isArr, elemsOf, hb,
      Bool.false_and, Bool.false_eq_true, if_false, if_true]
    rw [hmapped]
    exact hout
  · intro mf hmf
    obtain ⟨mf2, heq, hnd⟩ := hent _ hmf
    injection heq with heq2
    subst heq2
    refine ⟨bareRecordOf (JValue.obj mf), ?_, ?_⟩
    · exact (hmemiff _).mpr (List.mem_map_of_mem bareRecordOf hmf)
    · intro k v hkv
      exact jget_ospread_of_mem _ mf hnd k v hkv

/-- C5 (amended): normalization loses no information for the three shape
families whose mapping ends in an object spread — the `data`-array
(OpenAI) family, the GitHub Models array family, and the bare-array
family: every field of an input entry, unmapped provider-specific fields
included, is preserved verbatim in the resulting record.  The
`{models: [...]}` family (Ollama branch) instead keeps only its fixed
seven-field set, dropping unmapped fields. -/
theorem normalizeModels_spread_families_preserve_fields :
    (∀ (ep : Endpoint) (fs : JObj) (entries : List JValue),
        alookup fs "data" = some (JValue.arr entries) →
        (∀ m ∈ entries, ∃ mf, m = JValue.obj mf ∧
          (mf.map Prod.fst).Nodup) →
        (∀ m ∈ entries, isStr (jgetV m "id") = true) →
        ∃ out, normalizeModels (JValue.obj fs) ep = .ok out ∧
          ∀ mf, JValue.obj mf ∈ entries →
            ∃ r ∈ out, ∀ k v, (k, v) ∈ mf → jget r k = v) ∧
    (∀ (ep : Endpoint) (entries : List JValue),
        ep.name = "GitHub Models" →
        (∀ m ∈ entries, ∃ mf, m = JValue.obj mf ∧
          (mf.map Prod.fst).Nodup) →
        (∀ m ∈ entries, isStr (jgetV m "id") = true) →
        ∃ out, normalizeModels (JValue.arr entries) ep = .ok out ∧
          ∀ mf, JValue.obj mf ∈ entries →
            ∃ r ∈ out, ∀ k v, (k, v) ∈ mf → jget r k = v) ∧
    (∀ (ep : Endpoint) (entries : List JValue),
        ep.name ≠ "GitHub Models" →
        (∀ m ∈ entries, ∃ mf, m = JValue.obj mf ∧
          (mf.map Prod.fst).Nodup) →
        (∀ m ∈ entries, isStr (jgetV m "id") = true) →
        ∃ out, normalizeModels (JValue.arr entries) ep = .ok out ∧
          ∀ mf, JValue.obj mf ∈ entries →
            ∃ r ∈ out, ∀ k v, (k, v) ∈ mf → jget r k = v) :=
  ⟨fun ep fs entries hdata hent hid =>
      normalizeModels_data_family_preserves_fields ep fs entries
        hdata hent hid,
   fun ep entries hname hent hid =>
      normalizeModels_github_family_preserves_fields ep entries
        hname hent hid,
   fun ep entries hname hent hid =>
      normalizeModels_bare_family_preserves_fields ep entries
        hname hent hid⟩

/-- The GitHub Models endpoint configuration. -/
def gitHubEndpoint : Endpoint := { name := "GitHub Models" }

/-- A GitHub-array entry carrying the unmapped provider field `task`. -/
def gitHubEntryFields : JObj :=
  [("id", JValue.str "g1"), ("task", JValue.str "chat")]

/-- A bare-array entry carrying the unmapped provider field `extra`. -/
def bareEntryFields : JObj :=
  [("id", JValue.str "b1"), ("extra", JValue.num 2)]

/-- The Ollama endpoint configuration (its name is not `GitHub Models`,
so a bare array on it takes the bare-array branch). -/
def ollamaEndpoint : Endpoint := { name := "Ollama" }

/-- C5 witness: the amended theorem at one concrete payload per spread
family — a `{data: [...]}` object, a GitHub Models array, and a bare
array on a non-GitHub endpoint. -/
theorem normalizeModels_spread_families_preserve_fields_witness :
    (∃ out, normalizeModels (JValue.obj openAIPayloadFields) anyEndpoint
        = .ok out ∧
      ∀ mf, JValue.obj mf ∈ [JValue.obj openAIEntryFields] →
        ∃ r ∈ out, ∀ k v, (k, v) ∈ mf → jget r k = v) ∧
    (∃ out, normalizeModels (JValue.arr [JValue.obj gitHubEntryFields])
        gitHubEndpoint = .ok out ∧
      ∀ mf, JValue.obj mf ∈ [JValue.obj gitHubEntryFields] →
        ∃ r ∈ out, ∀ k v, (k, v) ∈ mf → jget r k = v) ∧
    (∃ out, normalizeModels (JValue.arr [JValue.obj bareEntryFields])
        ollamaEndpoint = .ok out ∧
      ∀ mf, JValue.obj mf ∈ [JValue.obj bareEntryFields] →
        ∃ r ∈ out, ∀ k v, (k, v) ∈ mf → jget r k = v) :=
  ⟨normalizeModels_spread_families_preserve_fields.1 anyEndpoint
      openAIPayloadFields [JValue.obj openAIEntryFields] rfl
      (by
        intro m hm
        simp only [List.mem_singleton] at hm
        subst hm
        exact ⟨openAIEntryFields, rfl, by decide⟩)
      (by
        intro m hm
        simp only [List.mem_singleton] at hm
        subst hm
        rfl),
   normalizeModels_spread_families_preserve_fields.2.1 gitHubEndpoint
      [JValue.obj gitHubEntryFields] rfl
      (by
        intro m hm
        simp only [List.mem_singleton] at hm
        subst hm
        exact ⟨gitHubEntryFields, rfl, by decide⟩)
      (by
        intro m hm
        simp only [List.mem_singleton] at hm
        subst hm
        rfl),
   normalizeModels_spread_families_preserve_fields.2.2 ollamaEndpoint
      [JValue.obj bareEntryFields] (by decide)
      (by
        intro m hm
        simp only [List.mem_singleton] at hm
        subst hm
        exact ⟨bareEntryFields, rfl, by decide⟩)
      (by
        intro m hm
        simp only [List.mem_singleton] at hm
        subst hm
        rfl)⟩

/-- An Ollama-shaped payload whose entry carries the unmapped provider
field `format`. -/
def ollamaPayload : JValue :=
  .obj [("models",
    .arr [.obj [("name", JValue.str "llama"), ("format", JValue.str "gguf")]])]

/-- What the Ollama branch actually produces for that entry. -/
def ollamaNormalizedRecord : JObj :=
  [("id", JValue.str "llama"), ("name", JValue.str "llama"),
   ("model", JValue.str "llama"), ("modified_at", JValue.undefined),
   ("size", JValue.undefined), ("digest", JValue.undefined),
   ("details", JValue.undefined)]

/-- C5 counterexample: normalization is claimed lossless for every
supported shape family, but the `{models: [...]}` (Ollama) branch builds
its record without a spread: the entry's `format: "gguf"` field is
present in the input and absent from the normalized record. -/
theorem normalizeModels_ollama_drops_field_counterexample :
    normalizeModels ollamaPayload ollamaEndpoint =
      .ok [ollamaNormalizedRecord] ∧
    jgetV (.obj [("name", JValue.str "llama"), ("format", JValue.str "gguf")])
      "format" = JValue.str "gguf" ∧
    jget ollamaNormalizedRecord "format" = JValue.undefined :=
  ⟨rfl, rfl, rfl⟩
